import Mathlib

/-!
# redis-farm: store registry and store facade

A shallow embedding of `redis_farm.go`, `store.go` and `redis_store.go`, and the
properties of the registry (`RedisFarm`) and of the facade (`RedisStore`) proved
over it.

Conventions of the embedding

* a Go `string` is a sequence of bytes (`GoString`); the literals of the source
  are all ASCII and are written `ascii "..."`;
* a Go `map[K]V` is an association list with first-match lookup; assignment
  `m[k] = v` overwrites the entry of `k` when there is one and adds one otherwise;
* a Go `int` is an `Int` (no arithmetic is performed on it by this code);
* a nil pointer or nil interface value is `none`; calling through it panics;
* a Go `error` is represented by its message, `nil` by `none`.
-/

namespace RedisFarmSpec

/-! ## Go strings -/

/-- A Go string: an immutable sequence of bytes. -/
abbrev GoString := List UInt8

/-- The byte of an ASCII character literal of the source, as in Go `'L'`. -/
def byte (c : Char) : UInt8 := c.toNat.toUInt8

/-- The bytes of an ASCII string literal of the source. -/
def ascii (s : String) : GoString := s.toList.map byte

/-- Go `strconv.Itoa`: the decimal representation, with a leading `-` below zero. -/
def Itoa (n : Int) : GoString :=
  let digits := (Nat.toDigits 10 n.natAbs).map byte
  if n < 0 then byte '-' :: digits else digits

/-- Go `strings.HasPrefix(s, prefix)`:
`len(s) >= len(prefix) && s[:len(prefix)] == prefix`. -/
def HasPrefix (s pre : GoString) : Bool :=
  decide (pre.length ≤ s.length) && (s.take pre.length == pre)

/-! ## Decimal representation

What it means for a string to be the decimal representation of an integer, said
by the value of its digits and not by any conversion function. -/

/-- The number written by a sequence of digit bytes, most significant first:
each byte `b` stands for the digit `b - '0'`. -/
def decimalValue (ds : GoString) : Nat :=
  ds.foldl (fun acc b => 10 * acc + (b.toNat - 48)) 0

/-- A numeral: at least one byte, every byte one of `'0'`..`'9'`, and no `0` in
front unless the numeral is `0` itself. -/
def isDigits (ds : GoString) : Bool :=
  !ds.isEmpty && ds.all (fun b => decide (48 ≤ b.toNat) && decide (b.toNat ≤ 57)) &&
    (ds.head? != some (byte '0') || ds.length == 1)

/-- Whether `s` is the decimal representation of `n`: a numeral whose value is
`n` when `n` is not negative, and `-` followed by a numeral whose value is `-n`
when it is. -/
def isDecimal (n : Int) (s : GoString) : Bool :=
  if n < 0 then
    match s with
    | [] => false
    | b :: ds => b == byte '-' && isDigits ds && decimalValue ds == n.natAbs
  else isDigits s && decimalValue s == n.natAbs

/-- Digit bytes only, and no `0` in front; the empty sequence included. -/
def noLeadingZero (ds : GoString) : Prop :=
  (∀ b ∈ ds, 48 ≤ b.toNat ∧ b.toNat ≤ 57) ∧ ds.head? ≠ some (byte '0')

/-! ## Go maps -/

/-- A Go map, as the list of its entries. -/
abbrev GoMap (κ ν : Type) := List (κ × ν)

namespace GoMap

variable {κ ν : Type} [DecidableEq κ]

/-- Go `make(map[K]V)`. -/
def make : GoMap κ ν := []

/-- Go `m[k] = v`. -/
def set : GoMap κ ν → κ → ν → GoMap κ ν
  | [], k, v => [(k, v)]
  | (k', v') :: rest, k, v =>
    if k' = k then (k, v) :: rest else (k', v') :: set rest k v

/-- Go `v, ok := m[k]`; `none` stands for `ok == false`. -/
def get : GoMap κ ν → κ → Option ν
  | [], _ => none
  | (k', v') :: rest, k => if k' = k then some v' else get rest k

/-- The keys visited by `for k := range m`, in one of the possible orders. -/
def keys (m : GoMap κ ν) : List κ := m.map Prod.fst

end GoMap

/-! ## store.go: the `Storer` interface -/

/-- The part of the `Storer` interface that the registry calls: `DB() int`.
A value of `σ` is a non-nil interface value. -/
class Storer (σ : Type) where
  DB : σ → Int

/-! ## redis_farm.go -/

/-- Go `type RedisFarm struct { code map[string]Storer; db map[int]Storer }`. -/
structure RedisFarm (σ : Type) where
  code : GoMap GoString σ
  db : GoMap Int σ

/-- Go `NewRedisFarm`: both maps are allocated and empty. -/
def NewRedisFarm {σ : Type} : RedisFarm σ :=
  { code := GoMap.make, db := GoMap.make }

namespace RedisFarm

variable {σ : Type}

/-- Go `Add`: `rf.code[code] = s; rf.db[s.DB()] = s`. -/
def Add [Storer σ] (rf : RedisFarm σ) (code : GoString) (s : σ) : RedisFarm σ :=
  let rf1 := { rf with code := rf.code.set code s }
  { rf1 with db := rf1.db.set (Storer.DB s) s }

/-- Go `ByCode`: the store under `code`, `none` (nil) when there is none. -/
def ByCode (rf : RedisFarm σ) (code : GoString) : Option σ :=
  match rf.code.get code with
  | none => none
  | some res => some res

/-- Go `ByDB`: the store under `db`, `none` (nil) when there is none. -/
def ByDB (rf : RedisFarm σ) (db : Int) : Option σ :=
  match rf.db.get db with
  | none => none
  | some res => some res

/-- Go `Codes`: appends every key of the `code` map to a nil slice. -/
def Codes (rf : RedisFarm σ) : List GoString :=
  rf.code.keys.foldl (fun res k => res ++ [k]) []

/-- The registry after a sequence of `Add` calls on a fresh `NewRedisFarm()`. -/
def addAll [Storer σ] (calls : List (GoString × σ)) : RedisFarm σ :=
  calls.foldl (fun rf call => rf.Add call.1 call.2) NewRedisFarm

end RedisFarm

/-- A call on the registry, with its arguments. -/
inductive FarmCall (σ : Type) where
  | add (code : GoString) (s : σ)
  | byCode (code : GoString)
  | byDB (db : Int)
  | codes

/-- What a call on the registry returns. -/
inductive FarmRet (σ : Type) where
  | unit
  | store (s : Option σ)
  | list (res : List GoString)

/-- One method call on a `*RedisFarm`: the registry it leaves behind and what it
returns. `Add` assigns to the two maps; `ByCode`, `ByDB` and `Codes` only read
them, so the receiver is handed back as it was. -/
def RedisFarm.call {σ : Type} [Storer σ] (rf : RedisFarm σ) :
    FarmCall σ → RedisFarm σ × FarmRet σ
  | .add code s => (rf.Add code s, .unit)
  | .byCode code => (rf, .store (rf.ByCode code))
  | .byDB db => (rf, .store (rf.ByDB db))
  | .codes => (rf, .list rf.Codes)

/-! ## redis_store.go -/

/-- Go `const RedisPUBSUBPrefix string = "CMND"`. -/
def RedisPUBSUBPrefix : GoString := ascii "CMND"

/-- A non-nil `*radix.Pool`, identified by what it was created with. -/
structure Pool where
  network : GoString
  addr : GoString
  size : Nat
  db : Int
  deriving DecidableEq

/-- A non-nil `radix.PubSubConn`, identified by what it was created with. -/
structure PubSubConn where
  network : GoString
  addr : GoString
  db : Int
  deriving DecidableEq

/-- Go `type RedisStore struct`. `pool` and `pubsub` are nil (`none`) until
`Connect` assigns them. The logger field takes no part in any result and is left
out. -/
structure RedisStore where
  pool : Option Pool
  pubsub : Option PubSubConn
  connection : GoString
  db : Int
  qprefix : GoString
  deriving DecidableEq

/-- A command built by `radix.Cmd(rcv, cmd, args...)`. -/
structure Cmd where
  name : GoString
  args : List GoString
  deriving DecidableEq

/-- A successful reply of the backend, by the value `radix.Cmd` unmarshals it to
for each kind of receiver used in this file (`*int`, `*string`, `*[]string`). -/
structure Reply where
  int : Int
  str : GoString
  strs : List GoString
  deriving DecidableEq

/-- The backend behind a pool: what `pool.Do` returns for a command, the error
message of a failed round trip or the reply. -/
abbrev Redis := Cmd → Except GoString Reply

/-- The two constructors of the radix client used by `Connect`; the connection
function passed to both selects database `db`. A constructor that fails returns
a nil handle together with the error. -/
structure Radix where
  NewPool : GoString → GoString → Nat → Int → Except GoString Pool
  PersistentPubSubWithOpts : GoString → GoString → Int → Except GoString PubSubConn

/-- A call made on one of the two client handles. -/
inductive ClientCall where
  | poolDo (c : Cmd)
  | poolClose (p : Pool)
  | pubsubClose (c : PubSubConn)
  deriving DecidableEq

/-- The run of a method of the store: the calls it made on its handles, in
order, and what it returned; `result = none` when it panicked on a nil handle. -/
structure Run (α : Type) where
  calls : List ClientCall
  result : Option α
  deriving DecidableEq

/-- Go `rs.pool.Do(c)`: a nil pool panics, otherwise the command goes to the
backend and `k` continues with the error or the reply. -/
def poolDo {α : Type} (pool : Option Pool) (redis : Redis) (c : Cmd)
    (k : Except GoString Reply → α) : Run α :=
  match pool with
  | none => { calls := [], result := none }
  | some _ => { calls := [.poolDo c], result := some (k (redis c)) }

/-- Go `NewRedisStore(connection, db, zl)`. -/
def NewRedisStore (connection : GoString) (db : Int) : RedisStore :=
  { pool := none, pubsub := none, connection := connection, db := db,
    qprefix := RedisPUBSUBPrefix }

namespace RedisStore

/-- Go `Connect`: the store it leaves behind and the error returned. -/
def Connect (rs : RedisStore) (radix : Radix) : RedisStore × Option GoString :=
  match radix.NewPool (ascii "tcp") rs.connection 10 rs.db with
  | .error err => ({ rs with pool := none }, some err)
  | .ok pool =>
    let rs1 := { rs with pool := some pool }
    match radix.PersistentPubSubWithOpts (ascii "tcp") rs1.connection rs1.db with
    | .error err => ({ rs1 with pubsub := none }, some err)
    | .ok conn => ({ rs1 with pubsub := some conn }, none)

/-- Go `Close`: `if rs.pool != nil { rs.pool.Close() }; rs.pubsub.Close()`. -/
def Close (rs : RedisStore) : Run Unit :=
  let closed : List ClientCall :=
    match rs.pool with
    | some p => [.poolClose p]
    | none => []
  match rs.pubsub with
  | none => { calls := closed, result := none }
  | some c => { calls := closed ++ [.pubsubClose c], result := some () }

/-- Go `DB`. -/
def DB (rs : RedisStore) : Int := rs.db

/-- Go `Keys(pattern, result)`: the new `*result` and the error. -/
def Keys (rs : RedisStore) (redis : Redis) (pattern : GoString) (result : List GoString) :
    Run (List GoString × Option GoString) :=
  poolDo rs.pool redis ⟨ascii "KEYS", [pattern]⟩ fun
    | .error err => (result, some err)
    | .ok r => (r.strs, none)

/-- Go `GetObject(key, result)`: the new `*result` and the error. -/
def GetObject (rs : RedisStore) (redis : Redis) (key : GoString) (result : Reply) :
    Run (Reply × Option GoString) :=
  poolDo rs.pool redis ⟨ascii "HGETALL", [key]⟩ fun
    | .error err => (result, some err)
    | .ok r => (r, none)

/-- Go `Get(key, val)`: the new `*val` and the error. -/
def Get (rs : RedisStore) (redis : Redis) (key : GoString) (val : Reply) :
    Run (Reply × Option GoString) :=
  poolDo rs.pool redis ⟨ascii "GET", [key]⟩ fun
    | .error err => (val, some err)
    | .ok r => (r, none)

/-- Go `MGet(keys, val)`: the new `*val` and the error. -/
def MGet (rs : RedisStore) (redis : Redis) (keys : List GoString) (val : List GoString) :
    Run (List GoString × Option GoString) :=
  poolDo rs.pool redis ⟨ascii "MGET", keys⟩ fun
    | .error err => (val, some err)
    | .ok r => (r.strs, none)

/-- Go `Set(key, val)`. -/
def Set (rs : RedisStore) (redis : Redis) (key val : GoString) : Run (Option GoString) :=
  poolDo rs.pool redis ⟨ascii "SET", [key, val]⟩ fun
    | .error err =>
      some (ascii "redis key " ++ key ++ ascii " setting failed. Detais: " ++ err)
    | .ok _ => none

/-- Go `Publish(code)`. -/
def Publish (rs : RedisStore) (redis : Redis) (code : GoString) :
    Run (Bool × Option GoString) :=
  poolDo rs.pool redis
    ⟨ascii "PUBLISH", [ rs.qprefix ++ ascii ":" ++ Itoa rs.db, code]⟩ fun
    | .error err =>
      (false, some (ascii "redis publish " ++ code ++ ascii " to channel " ++ rs.qprefix
        ++ ascii " failed. Detais: " ++ err))
    | .ok res => (decide (res.int > 0), none)

/-- Go `PublishEx(channel, msg)`; the debug log line is left out. -/
def PublishEx (rs : RedisStore) (redis : Redis) (channel msg : GoString) :
    Run (Bool × Option GoString) :=
  poolDo rs.pool redis ⟨ascii "PUBLISH", [channel, msg]⟩ fun
    | .error err =>
      (false, some (ascii "redis publish " ++ msg ++ ascii " to channel " ++ channel
        ++ ascii " failed. Detais: " ++ err))
    | .ok res => (decide (res.int > 0), none)

/-- Go `ListRange(key, from, to)`; a nil slice is the empty list. -/
def ListRange (rs : RedisStore) (redis : Redis) (key : GoString) (from_ to_ : Int) :
    Run (List GoString × Option GoString) :=
  poolDo rs.pool redis ⟨ascii "LRANGE", [key, Itoa from_, Itoa to_]⟩ fun
    | .error err =>
      ([], some (ascii "redis lrange " ++ key ++ ascii " failed. Detais: " ++ err))
    | .ok res => (res.strs, none)

/-- Go `ListLen(key)`. -/
def ListLen (rs : RedisStore) (redis : Redis) (key : GoString) :
    Run (Int × Option GoString) :=
  let keyb := key
  let key :=
    if HasPrefix key (ascii "M:") then keyb.set 0 (byte 'L')
    else if HasPrefix key (ascii "L:") == false then ascii "L:" ++ key
    else key
  poolDo rs.pool redis ⟨ascii "LLEN", [key]⟩ fun
    | .error err =>
      (0, some (ascii "redis lrange " ++ key ++ ascii " failed. Detais: " ++ err))
    | .ok res => (res.int, none)

/-- Go `LLen(key)`. -/
def LLen (rs : RedisStore) (redis : Redis) (key : GoString) :
    Run (Int × Option GoString) :=
  poolDo rs.pool redis ⟨ascii "LLEN", [key]⟩ fun
    | .error err =>
      (0, some (ascii "redis lrange " ++ key ++ ascii " failed. Detais: " ++ err))
    | .ok res => (res.int, none)

/-- Go `HGet(key, field)`. -/
def HGet (rs : RedisStore) (redis : Redis) (key field : GoString) :
    Run (GoString × Option GoString) :=
  poolDo rs.pool redis ⟨ascii "HGET", [key, field]⟩ fun
    | .error err =>
      ([], some (ascii "redis HGET " ++ key ++ ascii " getting failed. Detais: " ++ err))
    | .ok res => (res.str, none)

/-- Go `Lpush(key, element)`. -/
def Lpush (rs : RedisStore) (redis : Redis) (key element : GoString) :
    Run (Option GoString) :=
  poolDo rs.pool redis ⟨ascii "LPUSH", [key, element]⟩ fun
    | .error err =>
      some (ascii "redis LPUSH  " ++ element ++ ascii " to  " ++ key
        ++ ascii " failed. Detais: " ++ err)
    | .ok _ => none

/-- Go `Rpush(key, element)`. -/
def Rpush (rs : RedisStore) (redis : Redis) (key element : GoString) :
    Run (Option GoString) :=
  poolDo rs.pool redis ⟨ascii "RPUSH", [key, element]⟩ fun
    | .error err =>
      some (ascii "redis RPUSH  " ++ element ++ ascii " to  " ++ key
        ++ ascii " failed. Detais: " ++ err)
    | .ok _ => none

/-- Go `Lrem(key, element, cnt)`. -/
def Lrem (rs : RedisStore) (redis : Redis) (key element : GoString) (cnt : Int) :
    Run (Option GoString) :=
  poolDo rs.pool redis ⟨ascii "LREM", [key, Itoa cnt, element]⟩ fun
    | .error err =>
      some (ascii "redis LREM  " ++ element ++ ascii " to  " ++ key
        ++ ascii " failed. Detais: " ++ err)
    | .ok _ => none

/-- Go `Do(cmd, args...)`. -/
def Do (rs : RedisStore) (redis : Redis) (cmd : GoString) (args : List GoString) :
    Run (Option GoString) :=
  poolDo rs.pool redis ⟨cmd, args⟩ fun
    | .error err => some (ascii "redis " ++ cmd ++ ascii " failed. Detais: " ++ err)
    | .ok _ => none

end RedisStore

/-- A `*RedisStore` is a `Storer`; the registry reads its `DB()`. -/
instance : Storer RedisStore := ⟨RedisStore.DB⟩

/-! ## Concrete stores, registries and backends used as examples -/

/-- A client whose constructors both succeed. -/
def radixUp : Radix :=
  { NewPool := fun network addr size db => .ok ⟨network, addr, size, db⟩,
    PersistentPubSubWithOpts := fun network addr db => .ok ⟨network, addr, db⟩ }

/-- A client that cannot create the pool. -/
def radixPoolDown : Radix :=
  { radixUp with NewPool := fun _ _ _ _ => .error (ascii "connection refused") }

/-- A client that creates the pool but not the pub/sub connection. -/
def radixPubSubDown : Radix :=
  { radixUp with PersistentPubSubWithOpts := fun _ _ _ => .error (ascii "connection refused") }

/-- A backend on which every round trip fails with `EOF`. -/
def redisDown : Redis := fun _ => .error (ascii "EOF")

/-- A backend that answers every command with the integer `n`. -/
def redisInt (n : Int) : Redis := fun _ => .ok ⟨n, [], []⟩

/-- A store on db 3, not connected. -/
def storeA : RedisStore := NewRedisStore (ascii "a:6379") 3

/-- Another store on db 3, not connected. -/
def storeB : RedisStore := NewRedisStore (ascii "b:6379") 3

/-- A store on db 4, not connected. -/
def storeC : RedisStore := NewRedisStore (ascii "c:6379") 4

/-- A connected store on db 3. -/
def storeUp : RedisStore := (storeA.Connect radixUp).1

/-- The pool of `storeUp`. -/
def poolUp : Pool := ⟨ascii "tcp", ascii "a:6379", 10, 3⟩

/-! ## Lemmas on Go maps -/

namespace GoMap

variable {κ ν : Type} [DecidableEq κ]

theorem get_set_self (m : GoMap κ ν) (k : κ) (v : ν) : get (set m k v) k = some v := by
  induction m with
  | nil => simp [set, get]
  | cons e rest ih =>
    obtain ⟨k', v'⟩ := e
    by_cases h : k' = k
    · simp [set, get, h]
    · simp [set, get, h, ih]

theorem get_set_other (m : GoMap κ ν) (k k2 : κ) (v : ν) (h : k2 ≠ k) :
    get (set m k v) k2 = get m k2 := by
  induction m with
  | nil => simp [set, get, Ne.symm h]
  | cons e rest ih =>
    obtain ⟨k', v'⟩ := e
    by_cases hk : k' = k
    · subst hk
      simp [set, get, Ne.symm h]
    · simp only [set, hk, if_false, get, ih]

theorem mem_keys_set (m : GoMap κ ν) (k k2 : κ) (v : ν) :
    k2 ∈ keys (set m k v) ↔ k2 = k ∨ k2 ∈ keys m := by
  induction m with
  | nil => simp [set, keys]
  | cons e rest ih =>
    obtain ⟨k', v'⟩ := e
    by_cases hk : k' = k
    · subst hk
      simp [set, keys]
    · have ih2 : k2 ∈ List.map Prod.fst (set rest k v) ↔ k2 = k ∨ k2 ∈ List.map Prod.fst rest := ih
      simp only [set, hk, if_false, keys, List.map_cons, List.mem_cons, ih2]
      tauto

theorem nodup_keys_set (m : GoMap κ ν) (k : κ) (v : ν) (h : (keys m).Nodup) :
    (keys (set m k v)).Nodup := by
  induction m with
  | nil => simp [set, keys]
  | cons e rest ih =>
    obtain ⟨k', v'⟩ := e
    have hcons : k' ∉ keys rest ∧ (keys rest).Nodup := by
      simpa [keys] using h
    by_cases hk : k' = k
    · subst hk
      simpa [set, keys] using h
    · have hmem : k' ∉ keys (set rest k v) := by
        rw [mem_keys_set]
        rintro (h1 | h1)
        · exact hk h1
        · exact hcons.1 h1
      have hnd := ih hcons.2
      simp only [set, hk, if_false]
      exact List.nodup_cons.mpr ⟨hmem, hnd⟩

theorem get_eq_none_of_not_mem (m : GoMap κ ν) (k : κ) (h : k ∉ keys m) : get m k = none := by
  induction m with
  | nil => simp [get]
  | cons e rest ih =>
    obtain ⟨k', v'⟩ := e
    have h2 : ¬ k = k' ∧ k ∉ keys rest := by simpa [keys] using h
    have h3 : ¬ k' = k := fun hh => h2.1 hh.symm
    simp [get, h3, ih h2.2]

theorem get_of_mem_keys (m : GoMap κ ν) (k : κ) (h : k ∈ keys m) : ∃ v, get m k = some v := by
  induction m with
  | nil => simp [keys] at h
  | cons e rest ih =>
    obtain ⟨k', v'⟩ := e
    by_cases hk : k' = k
    · exact ⟨v', by simp [get, hk]⟩
    · have h2 : k = k' ∨ k ∈ keys rest := by simpa [keys] using h
      rcases h2 with h2 | h2
      · exact absurd h2.symm hk
      · obtain ⟨v, hv⟩ := ih h2
        exact ⟨v, by simp [get, hk, hv]⟩

end GoMap

namespace RedisFarm

variable {σ : Type}

theorem ByCode_eq_get (rf : RedisFarm σ) (c : GoString) : rf.ByCode c = rf.code.get c := by
  unfold ByCode
  cases rf.code.get c <;> rfl

theorem ByDB_eq_get (rf : RedisFarm σ) (d : Int) : rf.ByDB d = rf.db.get d := by
  unfold ByDB
  cases rf.db.get d <;> rfl

theorem Codes_eq_keys (rf : RedisFarm σ) : rf.Codes = rf.code.keys := by
  unfold Codes
  have h : ∀ (l acc : List GoString), l.foldl (fun res k => res ++ [k]) acc = acc ++ l := by
    intro l
    induction l with
    | nil => intro acc; simp
    | cons x xs ih => intro acc; simp [ih]
  simpa using h rf.code.keys []

theorem ByCode_fresh (c : GoString) : (NewRedisFarm : RedisFarm σ).ByCode c = none := rfl

theorem ByDB_fresh (d : Int) : (NewRedisFarm : RedisFarm σ).ByDB d = none := rfl

theorem addAll_snoc [Storer σ] (calls : List (GoString × σ)) (c : GoString) (s : σ) :
    addAll (calls ++ [(c, s)]) = (addAll calls).Add c s := by
  simp [addAll, List.foldl_append]

end RedisFarm

namespace RedisFarm

variable {σ : Type} [Storer σ]

theorem ByCode_Add_self (rf : RedisFarm σ) (code : GoString) (s : σ) :
    (rf.Add code s).ByCode code = some s := by
  rw [ByCode_eq_get]
  exact GoMap.get_set_self _ _ _

theorem ByDB_Add_self (rf : RedisFarm σ) (code : GoString) (s : σ) :
    (rf.Add code s).ByDB (Storer.DB s) = some s := by
  rw [ByDB_eq_get]
  exact GoMap.get_set_self _ _ _

theorem ByCode_Add_other (rf : RedisFarm σ) (code c : GoString) (s : σ) (h : c ≠ code) :
    (rf.Add code s).ByCode c = rf.ByCode c := by
  rw [ByCode_eq_get, ByCode_eq_get]
  exact GoMap.get_set_other _ _ _ _ h

theorem ByDB_Add_other (rf : RedisFarm σ) (code : GoString) (d : Int) (s : σ)
    (h : d ≠ Storer.DB s) : (rf.Add code s).ByDB d = rf.ByDB d := by
  rw [ByDB_eq_get, ByDB_eq_get]
  exact GoMap.get_set_other _ _ _ _ h

/-- A store found by code was passed to `Add` with that code. -/
theorem mem_of_ByCode (calls : List (GoString × σ)) :
    ∀ c s, (addAll calls).ByCode c = some s → (c, s) ∈ calls := by
  induction calls using List.reverseRecOn with
  | nil =>
    intro c s h
    rw [show (addAll ([] : List (GoString × σ))) = NewRedisFarm from rfl, ByCode_fresh] at h
    cases h
  | append_singleton l a ih =>
    obtain ⟨c0, s0⟩ := a
    intro c s h
    rw [addAll_snoc] at h
    by_cases hc : c = c0
    · subst hc
      rw [ByCode_Add_self] at h
      cases h
      simp
    · rw [ByCode_Add_other _ _ _ _ hc] at h
      exact List.mem_append_left _ (ih c s h)

/-- A store found by db index has that db index and was passed to `Add`. -/
theorem mem_of_ByDB (calls : List (GoString × σ)) :
    ∀ d s, (addAll calls).ByDB d = some s → Storer.DB s = d ∧ ∃ c, (c, s) ∈ calls := by
  induction calls using List.reverseRecOn with
  | nil =>
    intro d s h
    rw [show (addAll ([] : List (GoString × σ))) = NewRedisFarm from rfl, ByDB_fresh] at h
    cases h
  | append_singleton l a ih =>
    obtain ⟨c0, s0⟩ := a
    intro d s h
    rw [addAll_snoc] at h
    by_cases hd : d = Storer.DB s0
    · subst hd
      rw [ByDB_Add_self] at h
      cases h
      exact ⟨rfl, c0, by simp⟩
    · rw [ByDB_Add_other _ _ _ _ hd] at h
      obtain ⟨h1, c, h2⟩ := ih d s h
      exact ⟨h1, c, List.mem_append_left _ h2⟩

/-- The keys of the `code` map are the codes passed to `Add`, each once. -/
theorem keys_addAll (calls : List (GoString × σ)) :
    (∀ c, c ∈ (addAll calls).code.keys ↔ ∃ s, (c, s) ∈ calls) ∧
      (addAll calls).code.keys.Nodup := by
  induction calls using List.reverseRecOn with
  | nil =>
    refine ⟨fun c => ?_, ?_⟩
    · simp [addAll, NewRedisFarm, GoMap.make, GoMap.keys]
    · simp [addAll, NewRedisFarm, GoMap.make, GoMap.keys]
  | append_singleton l a ih =>
    obtain ⟨c0, s0⟩ := a
    rw [addAll_snoc]
    have hcode : ((addAll l).Add c0 s0).code = (addAll l).code.set c0 s0 := rfl
    rw [hcode]
    refine ⟨fun c => ?_, GoMap.nodup_keys_set _ _ _ ih.2⟩
    rw [GoMap.mem_keys_set, ih.1 c]
    constructor
    · rintro (h | ⟨s, h⟩)
      · exact ⟨s0, by simp [h]⟩
      · exact ⟨s, List.mem_append_left _ h⟩
    · rintro ⟨s, h⟩
      rcases List.mem_append.mp h with h | h
      · exact Or.inr ⟨s, h⟩
      · simp only [List.mem_singleton, Prod.mk.injEq] at h
        exact Or.inl h.1

/-- The keys of the `db` map are the db indices of the stores passed to `Add`. -/
theorem mem_keys_db_addAll (calls : List (GoString × σ)) (d : Int)
    (h : d ∈ (addAll calls).db.keys) : ∃ p ∈ calls, Storer.DB p.2 = d := by
  induction calls using List.reverseRecOn with
  | nil => simp [addAll, NewRedisFarm, GoMap.make, GoMap.keys] at h
  | append_singleton l a ih =>
    obtain ⟨c0, s0⟩ := a
    rw [addAll_snoc] at h
    have hdb : ((addAll l).Add c0 s0).db = (addAll l).db.set (Storer.DB s0) s0 := rfl
    rw [hdb, GoMap.mem_keys_set] at h
    rcases h with h | h
    · exact ⟨(c0, s0), by simp, h.symm⟩
    · obtain ⟨p, hp, hpd⟩ := ih h
      exact ⟨p, List.mem_append_left _ hp, hpd⟩

end RedisFarm

/-! ## Lemmas on the decimal representation -/

theorem byte_digitChar (k : Nat) (h : k < 10) : (byte (Nat.digitChar k)).toNat = 48 + k := by
  interval_cases k <;> rfl

theorem decimalValue_snoc (ds : GoString) (b : UInt8) :
    decimalValue (ds ++ [b]) = 10 * decimalValue ds + (b.toNat - 48) := by
  simp [decimalValue, List.foldl_append]

/-- The digits produced by `Nat.toDigitsCore 10`, in front of the accumulator. -/
theorem toDigitsCore_spec : ∀ (fuel n : Nat) (acc : List Char), n < fuel →
    ∃ pre : List Char, Nat.toDigitsCore 10 fuel n acc = pre ++ acc ∧ pre ≠ [] ∧
      (∀ b ∈ pre.map byte, 48 ≤ b.toNat ∧ b.toNat ≤ 57) ∧
      decimalValue (pre.map byte) = n ∧
      (n = 0 → pre = ['0']) ∧ (0 < n → (pre.map byte).head? ≠ some (byte '0')) := by
  intro fuel
  induction fuel with
  | zero => intro n acc h; omega
  | succ fuel ih =>
    intro n acc h
    have hmod : n % 10 < 10 := Nat.mod_lt _ (by decide)
    have hd := byte_digitChar (n % 10) hmod
    by_cases hq : n / 10 = 0
    · have hn : n < 10 := by omega
      have hmodn : n % 10 = n := Nat.mod_eq_of_lt hn
      refine ⟨[Nat.digitChar (n % 10)], ?_, by simp, ?_, ?_, ?_, ?_⟩
      · simp [Nat.toDigitsCore, hq]
      · intro b hb
        simp only [List.map_cons, List.map_nil, List.mem_singleton] at hb
        subst hb
        omega
      · simp only [decimalValue, List.map_cons, List.map_nil, List.foldl_cons, List.foldl_nil]
        omega
      · intro h0
        subst h0
        rfl
      · intro hpos hhead
        simp only [List.map_cons, List.map_nil, List.head?_cons, Option.some.injEq] at hhead
        have h48 : (byte '0').toNat = 48 := rfl
        rw [hhead, h48] at hd
        omega
    · have hlt : n / 10 < fuel := by omega
      obtain ⟨pre, hpre, hne, hall, hval, _, hhead⟩ :=
        ih (n / 10) (Nat.digitChar (n % 10) :: acc) hlt
      refine ⟨pre ++ [Nat.digitChar (n % 10)], ?_, by simp, ?_, ?_, ?_, ?_⟩
      · simp [Nat.toDigitsCore, hq, hpre]
      · intro b hb
        simp only [List.map_append, List.map_cons, List.map_nil, List.mem_append,
          List.mem_singleton] at hb
        rcases hb with hb | hb
        · exact hall b hb
        · subst hb
          omega
      · rw [List.map_append, List.map_cons, List.map_nil, decimalValue_snoc, hval, hd]
        omega
      · intro h0
        omega
      · intro _
        have hpos : 0 < n / 10 := Nat.pos_of_ne_zero hq
        have := hhead hpos
        cases pre with
        | nil => exact absurd rfl hne
        | cons c cs => simpa using this

theorem isDigits_toDigits (m : Nat) :
    isDigits ((Nat.toDigits 10 m).map byte) = true ∧
      decimalValue ((Nat.toDigits 10 m).map byte) = m := by
  obtain ⟨pre, hpre, hne, hall, hval, h0, hhead⟩ := toDigitsCore_spec (m + 1) m [] (by omega)
  have hD : Nat.toDigits 10 m = pre := by
    simpa [Nat.toDigits] using hpre
  rw [hD]
  refine ⟨?_, hval⟩
  unfold isDigits
  rw [Bool.and_eq_true, Bool.and_eq_true]
  refine ⟨⟨?_, ?_⟩, ?_⟩
  · cases pre with
    | nil => exact absurd rfl hne
    | cons c cs => rfl
  · rw [List.all_eq_true]
    intro b hb
    have := hall b hb
    simp [this.1, this.2]
  · rcases Nat.eq_zero_or_pos m with hm | hm
    · rw [h0 hm]
      rfl
    · rw [Bool.or_eq_true]
      exact Or.inl (bne_iff_ne.mpr (hhead hm))

theorem isDecimal_Itoa (n : Int) : isDecimal n (Itoa n) = true := by
  obtain ⟨h1, h2⟩ := isDigits_toDigits n.natAbs
  unfold isDecimal Itoa
  by_cases hn : n < 0
  · simp [hn, h1, h2]
  · simp [hn, h1, h2]

theorem byte_toNat_inj (a b : UInt8) (h : a.toNat = b.toNat) : a = b := by
  cases a with
  | mk x =>
    cases b with
    | mk y =>
      have hxy : x = y := BitVec.eq_of_toNat_eq h
      rw [hxy]

theorem noLeadingZero_init (init : GoString) (b : UInt8) (h : noLeadingZero (init ++ [b])) :
    noLeadingZero init := by
  refine ⟨fun c hc => h.1 c (List.mem_append_left _ hc), ?_⟩
  cases init with
  | nil => simp
  | cons c cs => simpa using h.2

theorem decimalValue_pos (ds : GoString) (h : noLeadingZero ds) (hne : ds ≠ []) :
    0 < decimalValue ds := by
  induction ds using List.reverseRecOn with
  | nil => exact absurd rfl hne
  | append_singleton init b ih =>
    rw [decimalValue_snoc]
    cases init with
    | nil =>
      have hb := h.1 b (by simp)
      have hne48 : b.toNat ≠ 48 := fun h48 => h.2 (by
        have : b = byte '0' := byte_toNat_inj _ _ h48
        simp [this])
      omega
    | cons c cs =>
      have := ih (noLeadingZero_init _ b h) (by simp)
      omega

theorem noLeadingZero_unique (ds : GoString) : ∀ es : GoString, noLeadingZero ds →
    noLeadingZero es → decimalValue ds = decimalValue es → ds = es := by
  induction ds using List.reverseRecOn with
  | nil =>
    intro es _ hes hv
    by_contra hne
    have := decimalValue_pos es hes (fun h => hne h.symm)
    have h0 : decimalValue ([] : GoString) = 0 := rfl
    omega
  | append_singleton init b ih =>
    intro es hds hes hv
    rcases List.eq_nil_or_concat es with hnil | ⟨init2, b2, hcat⟩
    · subst hnil
      have := decimalValue_pos (init ++ [b]) hds (by simp)
      have h0 : decimalValue ([] : GoString) = 0 := rfl
      omega
    · rw [List.concat_eq_append] at hcat
      subst hcat
      rw [decimalValue_snoc, decimalValue_snoc] at hv
      have hb := hds.1 b (by simp)
      have hb2 := hes.1 b2 (by simp)
      have hbb : b = b2 := byte_toNat_inj _ _ (by omega)
      have hvi : decimalValue init = decimalValue init2 := by omega
      rw [ih init2 (noLeadingZero_init _ b hds) (noLeadingZero_init _ b2 hes) hvi, hbb]

theorem isDigits_cases (ds : GoString) (h : isDigits ds = true) :
    ds = [byte '0'] ∨ (ds ≠ [] ∧ noLeadingZero ds) := by
  unfold isDigits at h
  rw [Bool.and_eq_true, Bool.and_eq_true, Bool.or_eq_true] at h
  obtain ⟨⟨hne, hall⟩, hhead⟩ := h
  have hne2 : ds ≠ [] := by
    intro h0
    subst h0
    simp at hne
  have hall2 : ∀ b ∈ ds, 48 ≤ b.toNat ∧ b.toNat ≤ 57 := by
    intro b hb
    have := List.all_eq_true.mp hall b hb
    simpa using this
  rcases hhead with hhead | hlen
  · exact Or.inr ⟨hne2, hall2, bne_iff_ne.mp hhead⟩
  · by_cases h0 : ds.head? = some (byte '0')
    · left
      cases ds with
      | nil => exact absurd rfl hne2
      | cons c cs =>
        have hc : c = byte '0' := by simpa using h0
        have hcs : cs = [] := by
          have : cs.length = 0 := by simpa using hlen
          exact List.length_eq_zero.mp this
        rw [hc, hcs]
    · exact Or.inr ⟨hne2, hall2, h0⟩

theorem isDigits_unique (ds es : GoString) (hd : isDigits ds = true) (he : isDigits es = true)
    (hv : decimalValue ds = decimalValue es) : ds = es := by
  have h0 : decimalValue [byte '0'] = 0 := rfl
  rcases isDigits_cases ds hd with h1 | ⟨h1, h1n⟩ <;>
    rcases isDigits_cases es he with h2 | ⟨h2, h2n⟩
  · rw [h1, h2]
  · have := decimalValue_pos es h2n h2
    rw [h1, h0] at hv
    omega
  · have := decimalValue_pos ds h1n h1
    rw [h2, h0] at hv
    omega
  · exact noLeadingZero_unique ds es h1n h2n hv

/-- `Itoa n` is the decimal representation of `n`, and the only one. -/
theorem isDecimal_iff (n : Int) (s : GoString) : isDecimal n s = true ↔ s = Itoa n := by
  constructor
  · intro h
    obtain ⟨h1, h2⟩ := isDigits_toDigits n.natAbs
    unfold isDecimal at h
    unfold Itoa
    by_cases hn : n < 0
    · rw [if_pos hn] at h
      simp only [hn, if_true]
      cases s with
      | nil => cases h
      | cons b ds =>
        simp only [Bool.and_eq_true, beq_iff_eq] at h
        obtain ⟨⟨hb, hds⟩, hv⟩ := h
        rw [hb, isDigits_unique ds _ hds h1 (hv.trans h2.symm)]
    · rw [if_neg hn, Bool.and_eq_true, beq_iff_eq] at h
      simp only [hn, if_false]
      exact isDigits_unique s _ h.1 h1 (h.2.trans h2.symm)
  · intro h
    rw [h]
    exact isDecimal_Itoa n

/-! ## Lemmas on the store -/

theorem HasPrefix_iff (s pre : GoString) : HasPrefix s pre = true ↔ pre <+: s := by
  unfold HasPrefix
  rw [Bool.and_eq_true, decide_eq_true_iff, beq_iff_eq]
  constructor
  · rintro ⟨_, h2⟩
    exact List.prefix_iff_eq_take.mpr h2.symm
  · intro h
    exact ⟨h.length_le, (List.prefix_iff_eq_take.mp h).symm⟩

theorem HasPrefix_append (pre x : GoString) : HasPrefix (pre ++ x) pre = true :=
  (HasPrefix_iff _ _).mpr (List.prefix_append pre x)

theorem HasPrefix_L_M (x : GoString) : HasPrefix (ascii "L:" ++ x) (ascii "M:") = false := by
  rw [Bool.eq_false_iff, Ne, HasPrefix_iff]
  intro h
  have h2 : ascii "M:" <+: ascii "L:" := by
    have := List.prefix_of_prefix_length_le h (List.prefix_append _ x) (by decide)
    exact this
  exact absurd h2 (by decide)

theorem set_M_to_L (x : GoString) :
    (ascii "M:" ++ x).set 0 (byte 'L') = ascii "L:" ++ x := by
  have hM : ascii "M:" = [byte 'M', byte ':'] := by decide
  have hL : ascii "L:" = [byte 'L', byte ':'] := by decide
  rw [hM, hL]
  rfl

/-- The key that `ListLen` sends with `LLEN`. -/
theorem ListLen_calls (rs : RedisStore) (p : Pool) (redis : Redis) (key : GoString)
    (hp : rs.pool = some p) :
    (rs.ListLen redis key).calls =
      [.poolDo ⟨ascii "LLEN",
        [if HasPrefix key (ascii "M:") then key.set 0 (byte 'L')
          else if HasPrefix key (ascii "L:") == false then ascii "L:" ++ key else key]⟩] := by
  simp only [RedisStore.ListLen, poolDo, hp]

theorem Connect_fields (rs : RedisStore) (radix : Radix) :
    (rs.Connect radix).1.db = rs.db ∧
      RedisStore.qprefix (rs.Connect radix).1 = rs.qprefix ∧
      (rs.Connect radix).1.connection = rs.connection := by
  unfold RedisStore.Connect
  cases radix.NewPool (ascii "tcp") rs.connection 10 rs.db with
  | error err => exact ⟨rfl, rfl, rfl⟩
  | ok pool =>
    dsimp only
    cases radix.PersistentPubSubWithOpts (ascii "tcp") rs.connection rs.db with
    | error err => exact ⟨rfl, rfl, rfl⟩
    | ok conn => exact ⟨rfl, rfl, rfl⟩

/-- C1: in every registry state, right after `Add(code, s)` both `ByCode(code)` and
`ByDB(s.DB())` return `s` (so the two lookups agree), whatever the code or the db
index mapped to before. -/
theorem C1_add_then_lookup {σ : Type} [Storer σ] (rf : RedisFarm σ) (code : GoString) (s : σ) :
    (rf.Add code s).ByCode code = some s ∧
    (rf.Add code s).ByDB (Storer.DB s) = some s ∧
    (rf.Add code s).ByCode code = (rf.Add code s).ByDB (Storer.DB s) := by
  have h1 : (rf.Add code s).ByCode code = some s := by
    rw [RedisFarm.ByCode_eq_get]
    exact GoMap.get_set_self _ _ _
  have h2 : (rf.Add code s).ByDB (Storer.DB s) = some s := by
    rw [RedisFarm.ByDB_eq_get]
    exact GoMap.get_set_self _ _ _
  exact ⟨h1, h2, h1.trans h2.symm⟩

/-- C2 (as stated, refuted): with two codes registered for two different stores of
the same db index, the store found by the first code is not the one found by its
own db index; and with one code registered twice for stores of different db
indices, the store still found by the first db index is found by no code. -/
theorem C2_counterexample :
    ((RedisFarm.addAll [(ascii "a", storeA), (ascii "b", storeB)]).ByCode (ascii "a")
        = some storeA ∧
      (RedisFarm.addAll [(ascii "a", storeA), (ascii "b", storeB)]).ByDB (Storer.DB storeA)
        ≠ some storeA) ∧
    ((RedisFarm.addAll [(ascii "a", storeA), (ascii "a", storeC)]).ByDB 3 = some storeA ∧
      ¬ ∃ c, (RedisFarm.addAll [(ascii "a", storeA), (ascii "a", storeC)]).ByCode c
        = some storeA) := by
  refine ⟨⟨by decide, by decide⟩, by decide, ?_⟩
  rintro ⟨c, hc⟩
  have hmem := RedisFarm.mem_of_ByCode _ c storeA hc
  by_cases hca : c = ascii "a"
  · subst hca
    revert hc
    decide
  · simp [hca] at hmem

/-- C2 (amended): when the `Add` calls pair codes and db indices one to one (two
calls use the same code exactly when their stores have the same db index), the
registry they build from `NewRedisFarm()` is consistent: a store found by a code
is found by its own db index, a store found by a db index is found by some
code, and for every call `Add(code, s)` made, `ByCode(code) == ByDB(s.DB())`. -/
theorem C2_consistent_when_paired {σ : Type} [Storer σ] (calls : List (GoString × σ))
    (hpair : ∀ p ∈ calls, ∀ q ∈ calls, p.1 = q.1 ↔ Storer.DB p.2 = Storer.DB q.2) :
    (∀ c s, (RedisFarm.addAll calls).ByCode c = some s →
        (RedisFarm.addAll calls).ByDB (Storer.DB s) = some s) ∧
    (∀ d s, (RedisFarm.addAll calls).ByDB d = some s →
        ∃ c, (RedisFarm.addAll calls).ByCode c = some s) ∧
    (∀ p ∈ calls, (RedisFarm.addAll calls).ByCode p.1
        = (RedisFarm.addAll calls).ByDB (Storer.DB p.2)) := by
  have hmain : (∀ c s, (RedisFarm.addAll calls).ByCode c = some s →
        (RedisFarm.addAll calls).ByDB (Storer.DB s) = some s) ∧
      (∀ d s, (RedisFarm.addAll calls).ByDB d = some s →
        ∃ c, (RedisFarm.addAll calls).ByCode c = some s) := by
    clear * - hpair
    induction calls using List.reverseRecOn with
    | nil =>
      refine ⟨fun c s h => ?_, fun d s h => ?_⟩
      · rw [show (RedisFarm.addAll ([] : List (GoString × σ))) = NewRedisFarm from rfl,
          RedisFarm.ByCode_fresh] at h
        cases h
      · rw [show (RedisFarm.addAll ([] : List (GoString × σ))) = NewRedisFarm from rfl,
          RedisFarm.ByDB_fresh] at h
        cases h
    | append_singleton l a ih =>
      obtain ⟨c0, s0⟩ := a
      have hl : ∀ p ∈ l, ∀ q ∈ l, p.1 = q.1 ↔ Storer.DB p.2 = Storer.DB q.2 :=
        fun p hp q hq => hpair p (List.mem_append_left _ hp) q (List.mem_append_left _ hq)
      have hlast : (c0, s0) ∈ l ++ [(c0, s0)] := by simp
      obtain ⟨ih1, ih2⟩ := ih hl
      rw [RedisFarm.addAll_snoc]
      refine ⟨fun c s h => ?_, fun d s h => ?_⟩
      · by_cases hc : c = c0
        · subst hc
          rw [RedisFarm.ByCode_Add_self] at h
          cases h
          exact RedisFarm.ByDB_Add_self _ _ _
        · rw [RedisFarm.ByCode_Add_other _ _ _ _ hc] at h
          have hmem := RedisFarm.mem_of_ByCode l c s h
          have hd : Storer.DB s ≠ Storer.DB s0 := fun hdb =>
            hc ((hpair (c, s) (List.mem_append_left _ hmem) (c0, s0) hlast).mpr hdb)
          rw [RedisFarm.ByDB_Add_other _ _ _ _ hd]
          exact ih1 c s h
      · by_cases hd : d = Storer.DB s0
        · subst hd
          rw [RedisFarm.ByDB_Add_self] at h
          cases h
          exact ⟨c0, RedisFarm.ByCode_Add_self _ _ _⟩
        · rw [RedisFarm.ByDB_Add_other _ _ _ _ hd] at h
          obtain ⟨c, hc⟩ := ih2 d s h
          have hmem := RedisFarm.mem_of_ByCode l c s hc
          have hds := (RedisFarm.mem_of_ByDB l d s h).1
          have hne : c ≠ c0 := fun hcc =>
            hd (hds.symm.trans
              ((hpair (c, s) (List.mem_append_left _ hmem) (c0, s0) hlast).mp hcc))
          exact ⟨c, by rw [RedisFarm.ByCode_Add_other _ _ _ _ hne]; exact hc⟩
  refine ⟨hmain.1, hmain.2, fun p hp => ?_⟩
  obtain ⟨c, s⟩ := p
  have hkey : c ∈ (RedisFarm.addAll calls).code.keys :=
    ((RedisFarm.keys_addAll calls).1 c).mpr ⟨s, hp⟩
  obtain ⟨s2, hs2⟩ := GoMap.get_of_mem_keys _ _ hkey
  rw [← RedisFarm.ByCode_eq_get] at hs2
  have hmem := RedisFarm.mem_of_ByCode calls c s2 hs2
  have hdb : Storer.DB s = Storer.DB s2 := (hpair (c, s) hp (c, s2) hmem).mp rfl
  show (RedisFarm.addAll calls).ByCode c = (RedisFarm.addAll calls).ByDB (Storer.DB s)
  rw [hdb, hs2, hmain.1 c s2 hs2]

/-- C2 (amended), at the registry built by `Add("a", storeA)`, `Add("c", storeC)`. -/
theorem C2_consistent_when_paired_witness :
    (∀ p ∈ [(ascii "a", storeA), (ascii "c", storeC)],
      ∀ q ∈ [(ascii "a", storeA), (ascii "c", storeC)],
        p.1 = q.1 ↔ Storer.DB p.2 = Storer.DB q.2) ∧
    ((∀ c s, (RedisFarm.addAll [(ascii "a", storeA), (ascii "c", storeC)]).ByCode c = some s →
        (RedisFarm.addAll [(ascii "a", storeA), (ascii "c", storeC)]).ByDB (Storer.DB s)
          = some s) ∧
    (∀ d s, (RedisFarm.addAll [(ascii "a", storeA), (ascii "c", storeC)]).ByDB d = some s →
        ∃ c, (RedisFarm.addAll [(ascii "a", storeA), (ascii "c", storeC)]).ByCode c
          = some s) ∧
    (∀ p ∈ [(ascii "a", storeA), (ascii "c", storeC)],
      (RedisFarm.addAll [(ascii "a", storeA), (ascii "c", storeC)]).ByCode p.1
        = (RedisFarm.addAll [(ascii "a", storeA), (ascii "c", storeC)]).ByDB
            (Storer.DB p.2))) :=
  ⟨by decide, C2_consistent_when_paired _ (by decide)⟩

/-- C3: after any sequence of `Add` calls on a fresh registry, whatever the order
in which the map is visited, `Codes()` holds a string exactly when it was passed
to `Add` as a code, and holds it once; on a fresh registry `Codes()` is empty. -/
theorem C3_codes_exact {σ : Type} [Storer σ] (calls : List (GoString × σ))
    (res : List GoString) (hres : res.Perm (RedisFarm.addAll calls).Codes) :
    (∀ c, c ∈ res ↔ ∃ s, (c, s) ∈ calls) ∧
    (∀ c, (∃ s, (c, s) ∈ calls) → res.countP (fun k => decide (k = c)) = 1) ∧
    (NewRedisFarm : RedisFarm σ).Codes = [] := by
  rw [RedisFarm.Codes_eq_keys] at hres
  obtain ⟨hmem, hnd⟩ := RedisFarm.keys_addAll calls
  have hmem2 : ∀ c, c ∈ res ↔ ∃ s, (c, s) ∈ calls := fun c => by
    rw [hres.mem_iff]
    exact hmem c
  refine ⟨hmem2, fun c hc => ?_, rfl⟩
  exact List.count_eq_one_of_mem (hres.nodup_iff.mpr hnd) ((hmem2 c).mpr hc)

/-- C3, at `Add("a", storeA)`, `Add("b", storeB)`, `Add("a", storeC)` with the
codes visited in the order `b`, `a`. -/
theorem C3_codes_exact_witness :
    [ascii "b", ascii "a"].Perm
      (RedisFarm.addAll [(ascii "a", storeA), (ascii "b", storeB), (ascii "a", storeC)]).Codes ∧
    ((∀ c, c ∈ [ascii "b", ascii "a"] ↔
        ∃ s, (c, s) ∈ [(ascii "a", storeA), (ascii "b", storeB), (ascii "a", storeC)]) ∧
    (∀ c, (∃ s, (c, s) ∈ [(ascii "a", storeA), (ascii "b", storeB), (ascii "a", storeC)]) →
        [ascii "b", ascii "a"].countP (fun k => decide (k = c)) = 1) ∧
    (NewRedisFarm : RedisFarm RedisStore).Codes = []) :=
  ⟨by decide, C3_codes_exact _ _ (by decide)⟩

/-- C4: after any sequence of `Add` calls on a fresh registry, `ByCode(c)` is nil
for a code `c` that no call passed, and `ByDB(d)` is nil for a db index `d` that
is the `DB()` of no added store; on a fresh registry every lookup is nil. The
lookups are total: they return nil and have no way to fail. -/
theorem C4_absent_lookup_nil {σ : Type} [Storer σ] (calls : List (GoString × σ))
    (c : GoString) (d : Int)
    (hc : ∀ s, (c, s) ∉ calls) (hd : ∀ p ∈ calls, Storer.DB p.2 ≠ d) :
    (RedisFarm.addAll calls).ByCode c = none ∧
    (RedisFarm.addAll calls).ByDB d = none ∧
    (∀ c2, (NewRedisFarm : RedisFarm σ).ByCode c2 = none) ∧
    (∀ d2, (NewRedisFarm : RedisFarm σ).ByDB d2 = none) := by
  refine ⟨?_, ?_, fun _ => rfl, fun _ => rfl⟩
  · rw [RedisFarm.ByCode_eq_get]
    apply GoMap.get_eq_none_of_not_mem
    intro hmem
    obtain ⟨s, hs⟩ := ((RedisFarm.keys_addAll calls).1 c).mp hmem
    exact hc s hs
  · rw [RedisFarm.ByDB_eq_get]
    apply GoMap.get_eq_none_of_not_mem
    intro hmem
    obtain ⟨p, hp, hpd⟩ := RedisFarm.mem_keys_db_addAll calls d hmem
    exact hd p hp hpd

/-- C4, at `Add("intraday", storeA)` with `storeA.DB() == 3`: the code `other`
and the db index 4 are not found. -/
theorem C4_absent_lookup_nil_witness :
    (∀ s, (ascii "other", s) ∉ [(ascii "intraday", storeA)]) ∧
    (∀ p ∈ [(ascii "intraday", storeA)], Storer.DB p.2 ≠ 4) ∧
    ((RedisFarm.addAll [(ascii "intraday", storeA)]).ByCode (ascii "other") = none ∧
    (RedisFarm.addAll [(ascii "intraday", storeA)]).ByDB 4 = none ∧
    (∀ c2, (NewRedisFarm : RedisFarm RedisStore).ByCode c2 = none) ∧
    (∀ d2, (NewRedisFarm : RedisFarm RedisStore).ByDB d2 = none)) :=
  have h1 : ∀ s, (ascii "other", s) ∉ [(ascii "intraday", storeA)] := fun s hmem => by
    have hk : ascii "other" = ascii "intraday" := by
      simp only [List.mem_singleton, Prod.mk.injEq] at hmem
      exact hmem.1
    exact absurd hk (by decide)
  have h2 : ∀ p ∈ [(ascii "intraday", storeA)], Storer.DB p.2 ≠ 4 := by decide
  ⟨h1, h2, C4_absent_lookup_nil _ _ _ h1 h2⟩

/-- C10: `Add(code, s)` leaves every other code and every other db index as they
were: `ByCode(c)` for `c ≠ code` and `ByDB(d)` for `d ≠ s.DB()` return the same
before and after; and the calls `ByCode`, `ByDB` and `Codes` leave the registry
unchanged. -/
theorem C10_add_frame {σ : Type} [Storer σ] (rf : RedisFarm σ) (code : GoString) (s : σ)
    (c : GoString) (d : Int) (hc : c ≠ code) (hd : d ≠ Storer.DB s) :
    (rf.Add code s).ByCode c = rf.ByCode c ∧
    (rf.Add code s).ByDB d = rf.ByDB d ∧
    (rf.call (.add code s)).1 = rf.Add code s ∧
    (∀ c2, (rf.call (.byCode c2)).1 = rf) ∧
    (∀ d2, (rf.call (.byDB d2)).1 = rf) ∧
    (rf.call .codes).1 = rf :=
  ⟨RedisFarm.ByCode_Add_other rf code c s hc, RedisFarm.ByDB_Add_other rf code d s hd,
    rfl, fun _ => rfl, fun _ => rfl, rfl⟩

/-- C10, at a registry holding `storeA` under `a`, to which `storeC` (db 4) is
added under `c`: the code `a` and the db index 3 are untouched. -/
theorem C10_add_frame_witness :
    ascii "a" ≠ ascii "c" ∧ (3 : Int) ≠ Storer.DB storeC ∧
    (((RedisFarm.addAll [(ascii "a", storeA)]).Add (ascii "c") storeC).ByCode (ascii "a")
        = (RedisFarm.addAll [(ascii "a", storeA)]).ByCode (ascii "a") ∧
    ((RedisFarm.addAll [(ascii "a", storeA)]).Add (ascii "c") storeC).ByDB 3
        = (RedisFarm.addAll [(ascii "a", storeA)]).ByDB 3 ∧
    ((RedisFarm.addAll [(ascii "a", storeA)]).call (.add (ascii "c") storeC)).1
        = (RedisFarm.addAll [(ascii "a", storeA)]).Add (ascii "c") storeC ∧
    (∀ c2, ((RedisFarm.addAll [(ascii "a", storeA)]).call (.byCode c2)).1
        = RedisFarm.addAll [(ascii "a", storeA)]) ∧
    (∀ d2, ((RedisFarm.addAll [(ascii "a", storeA)]).call (.byDB d2)).1
        = RedisFarm.addAll [(ascii "a", storeA)]) ∧
    ((RedisFarm.addAll [(ascii "a", storeA)]).call .codes).1
        = RedisFarm.addAll [(ascii "a", storeA)]) :=
  ⟨by decide, by decide, C10_add_frame _ _ _ _ _ (by decide) (by decide)⟩

/-- C5: on a connected store, for every string `x`, `ListLen("M:" + x)` and
`ListLen("L:" + x)` send one `LLEN` command with the same key, `"L:" + x`, and
so return the same. -/
theorem C5_listlen_M_and_L_same_key (rs : RedisStore) (p : Pool) (redis : Redis)
    (x : GoString) (hp : rs.pool = some p) :
    (rs.ListLen redis (ascii "M:" ++ x)).calls = [.poolDo ⟨ascii "LLEN", [ascii "L:" ++ x]⟩] ∧
    (rs.ListLen redis (ascii "L:" ++ x)).calls = [.poolDo ⟨ascii "LLEN", [ascii "L:" ++ x]⟩] ∧
    rs.ListLen redis (ascii "M:" ++ x) = rs.ListLen redis (ascii "L:" ++ x) := by
  have hM : (if HasPrefix (ascii "M:" ++ x) (ascii "M:") then (ascii "M:" ++ x).set 0 (byte 'L')
      else if HasPrefix (ascii "M:" ++ x) (ascii "L:") == false then ascii "L:" ++ (ascii "M:" ++ x)
      else ascii "M:" ++ x) = ascii "L:" ++ x := by
    rw [HasPrefix_append, if_pos rfl, set_M_to_L]
  have hL : (if HasPrefix (ascii "L:" ++ x) (ascii "M:") then (ascii "L:" ++ x).set 0 (byte 'L')
      else if HasPrefix (ascii "L:" ++ x) (ascii "L:") == false then ascii "L:" ++ (ascii "L:" ++ x)
      else ascii "L:" ++ x) = ascii "L:" ++ x := by
    rw [HasPrefix_L_M, HasPrefix_append]
    rfl
  refine ⟨?_, ?_, ?_⟩
  · rw [ListLen_calls rs p redis _ hp, hM]
  · rw [ListLen_calls rs p redis _ hp, hL]
  · simp only [RedisStore.ListLen, hM, hL]

/-- C5, at the connected store on db 3 with `x = "foo"` and with the empty `x`. -/
theorem C5_listlen_M_and_L_same_key_witness :
    storeUp.pool = some poolUp ∧
    ((storeUp.ListLen (redisInt 7) (ascii "M:" ++ ascii "foo")).calls
        = [.poolDo ⟨ascii "LLEN", [ascii "L:" ++ ascii "foo"]⟩] ∧
    (storeUp.ListLen (redisInt 7) (ascii "L:" ++ ascii "foo")).calls
        = [.poolDo ⟨ascii "LLEN", [ascii "L:" ++ ascii "foo"]⟩] ∧
    storeUp.ListLen (redisInt 7) (ascii "M:" ++ ascii "foo")
        = storeUp.ListLen (redisInt 7) (ascii "L:" ++ ascii "foo")) ∧
    (storeUp.ListLen (redisInt 7) (ascii "M:" ++ [])).calls
        = [.poolDo ⟨ascii "LLEN", [ascii "L:" ++ []]⟩] :=
  ⟨by decide, C5_listlen_M_and_L_same_key storeUp poolUp (redisInt 7) (ascii "foo") (by decide),
    (C5_listlen_M_and_L_same_key storeUp poolUp (redisInt 7) [] (by decide)).1⟩

/-- C6: on a connected store, for every key that starts with neither `"L:"` nor
`"M:"`, `ListLen(key)` sends one `LLEN` command with the key `"L:" + key`. -/
theorem C6_listlen_prepends_L (rs : RedisStore) (p : Pool) (redis : Redis) (key : GoString)
    (hp : rs.pool = some p) (hL : ¬ ascii "L:" <+: key) (hM : ¬ ascii "M:" <+: key) :
    (rs.ListLen redis key).calls = [.poolDo ⟨ascii "LLEN", [ascii "L:" ++ key]⟩] := by
  have hL2 : HasPrefix key (ascii "L:") = false := by
    rw [Bool.eq_false_iff, Ne, HasPrefix_iff]
    exact hL
  have hM2 : HasPrefix key (ascii "M:") = false := by
    rw [Bool.eq_false_iff, Ne, HasPrefix_iff]
    exact hM
  rw [ListLen_calls rs p redis _ hp, hL2, hM2]
  rfl

/-- C6, at the connected store on db 3 with the keys `foo`, the empty key, `L`
and `M`. -/
theorem C6_listlen_prepends_L_witness :
    (storeUp.pool = some poolUp ∧
      ¬ ascii "L:" <+: ascii "foo" ∧ ¬ ascii "M:" <+: ascii "foo" ∧
      (storeUp.ListLen (redisInt 7) (ascii "foo")).calls
        = [.poolDo ⟨ascii "LLEN", [ascii "L:" ++ ascii "foo"]⟩]) ∧
    (storeUp.ListLen (redisInt 7) []).calls = [.poolDo ⟨ascii "LLEN", [ascii "L:" ++ []]⟩] ∧
    (storeUp.ListLen (redisInt 7) (ascii "L")).calls
        = [.poolDo ⟨ascii "LLEN", [ascii "L:" ++ ascii "L"]⟩] ∧
    (storeUp.ListLen (redisInt 7) (ascii "M")).calls
        = [.poolDo ⟨ascii "LLEN", [ascii "L:" ++ ascii "M"]⟩] :=
  ⟨⟨by decide, by decide, by decide,
      C6_listlen_prepends_L storeUp poolUp (redisInt 7) (ascii "foo") (by decide) (by decide)
        (by decide)⟩,
    C6_listlen_prepends_L storeUp poolUp (redisInt 7) [] (by decide) (by decide) (by decide),
    C6_listlen_prepends_L storeUp poolUp (redisInt 7) (ascii "L") (by decide) (by decide) (by decide),
    C6_listlen_prepends_L storeUp poolUp (redisInt 7) (ascii "M") (by decide) (by decide) (by decide)⟩

/-- C7: on a store built by `NewRedisStore` with db index `n` and connected,
`Publish(code)` sends a single `PUBLISH` command whose channel is `"CMND:"`
followed by the decimal representation of `n` (the one string that is a numeral
of value `n`, with `-` in front below zero) and whose payload is `code`; when
the backend answers with the receiver count `r` and no error, it returns
`(true, nil)` if `r > 0` and `(false, nil)` otherwise. -/
theorem C7_publish_channel (connection : GoString) (n : Int) (radix : Radix) (p : Pool)
    (redis : Redis) (code : GoString)
    (hp : ((NewRedisStore connection n).Connect radix).1.pool = some p) :
    ∃ ds : GoString, isDecimal n ds = true ∧ (∀ es, isDecimal n es = true → es = ds) ∧
      (((NewRedisStore connection n).Connect radix).1.Publish redis code).calls
        = [.poolDo ⟨ascii "PUBLISH", [ascii "CMND:" ++ ds, code]⟩] ∧
      ∀ r, redis ⟨ascii "PUBLISH", [ascii "CMND:" ++ ds, code]⟩ = .ok r →
        (r.int > 0 →
          (((NewRedisStore connection n).Connect radix).1.Publish redis code).result
            = some (true, none)) ∧
        (¬ r.int > 0 →
          (((NewRedisStore connection n).Connect radix).1.Publish redis code).result
            = some (false, none)) := by
  obtain ⟨hdb, hq, _⟩ := Connect_fields (NewRedisStore connection n) radix
  have hchan : RedisStore.qprefix ((NewRedisStore connection n).Connect radix).1 ++ ascii ":"
      ++ Itoa ((NewRedisStore connection n).Connect radix).1.db = ascii "CMND:" ++ Itoa n := by
    rw [hdb, hq]
    rfl
  refine ⟨Itoa n, isDecimal_Itoa n, fun es hes => (isDecimal_iff n es).mp hes, ?_,
    fun r hr => ⟨fun h => ?_, fun h => ?_⟩⟩
  · simp only [RedisStore.Publish, poolDo, hp, hchan]
  · simp only [RedisStore.Publish, poolDo, hp, hchan, hr, h, decide_True]
  · simp only [RedisStore.Publish, poolDo, hp, hchan, hr, h, decide_False]

/-- C7, at the scenario of the specification: `Publish("intraday:code1")` on the
store with db index 3 goes to the channel `CMND:3`, two receivers give `true`
and none gives `false`; a store with db index 12 publishes to `CMND:12`, and
`3` is not a decimal representation of 12. -/
theorem C7_publish_channel_witness :
    ((NewRedisStore (ascii "a:6379") 3).Connect radixUp).1.pool = some poolUp ∧
    (∃ ds : GoString, isDecimal 3 ds = true ∧ (∀ es, isDecimal 3 es = true → es = ds) ∧
      (((NewRedisStore (ascii "a:6379") 3).Connect radixUp).1.Publish (redisInt 2)
          (ascii "intraday:code1")).calls
        = [.poolDo ⟨ascii "PUBLISH", [ascii "CMND:" ++ ds, ascii "intraday:code1"]⟩] ∧
      ∀ r, redisInt 2 ⟨ascii "PUBLISH", [ascii "CMND:" ++ ds, ascii "intraday:code1"]⟩ = .ok r →
        (r.int > 0 →
          (((NewRedisStore (ascii "a:6379") 3).Connect radixUp).1.Publish (redisInt 2)
              (ascii "intraday:code1")).result = some (true, none)) ∧
        (¬ r.int > 0 →
          (((NewRedisStore (ascii "a:6379") 3).Connect radixUp).1.Publish (redisInt 2)
              (ascii "intraday:code1")).result = some (false, none))) ∧
    (((NewRedisStore (ascii "a:6379") 3).Connect radixUp).1.Publish (redisInt 2)
        (ascii "intraday:code1")).calls
      = [.poolDo ⟨ascii "PUBLISH", [ascii "CMND:3", ascii "intraday:code1"]⟩] ∧
    (((NewRedisStore (ascii "a:6379") 3).Connect radixUp).1.Publish (redisInt 2)
        (ascii "intraday:code1")).result = some (true, none) ∧
    (((NewRedisStore (ascii "a:6379") 3).Connect radixUp).1.Publish (redisInt 0)
        (ascii "intraday:code1")).result = some (false, none) ∧
    (((NewRedisStore (ascii "a:6379") 12).Connect radixUp).1.Publish (redisInt 2)
        (ascii "intraday:code1")).calls
      = [.poolDo ⟨ascii "PUBLISH", [ascii "CMND:12", ascii "intraday:code1"]⟩] ∧
    isDecimal 12 (ascii "12") = true ∧ isDecimal 12 (ascii "3") = false ∧
    isDecimal (-12) (ascii "-12") = true ∧ isDecimal 12 (ascii "012") = false :=
  ⟨by decide,
    C7_publish_channel (ascii "a:6379") 3 radixUp poolUp (redisInt 2)
      (ascii "intraday:code1") (by decide),
    by decide, by decide, by decide, by decide, by decide, by decide, by decide, by decide⟩

/-- C8 (the code at the failing inputs): `Close()` panics on the nil pub/sub handle
of a store that was never connected, of a store whose `Connect` failed on the
pool, and of a store whose `Connect` failed on the pub/sub connection (after
closing the pool); only after a successful `Connect` does it return. -/
theorem C8_close_panics_without_pubsub (connection : GoString) (db : Int) :
    (NewRedisStore connection db).Close = { calls := [], result := none } ∧
    ((NewRedisStore connection db).Connect radixPoolDown).1.Close
      = { calls := [], result := none } ∧
    ((NewRedisStore connection db).Connect radixPubSubDown).1.Close
      = { calls := [.poolClose ⟨ascii "tcp", connection, 10, db⟩], result := none } ∧
    ((NewRedisStore connection db).Connect radixUp).1.Close
      = { calls := [.poolClose ⟨ascii "tcp", connection, 10, db⟩,
            .pubsubClose ⟨ascii "tcp", connection, db⟩], result := some () } :=
  ⟨rfl, rfl, rfl, rfl⟩

/-- C9 (the code at the failing inputs): when the round trip fails with the error
`e`, `Get`, `MGet`, `Keys` and `GetObject` return `e` itself, so for the key `k`
and the error `EOF` the message names neither the command nor the key; and
`LLen` and `ListLen`, which send `LLEN`, return a message that names `lrange`. -/
theorem C9_unwrapped_transport_errors (e key : GoString) (val : Reply)
    (keys vals : List GoString) :
    (storeUp.Get (fun _ => .error e) key val).result = some (val, some e) ∧
    (storeUp.GetObject (fun _ => .error e) key val).result = some (val, some e) ∧
    (storeUp.Keys (fun _ => .error e) key vals).result = some (vals, some e) ∧
    (storeUp.MGet (fun _ => .error e) keys vals).result = some (vals, some e) ∧
    (storeUp.Get redisDown (ascii "k") val).calls = [.poolDo ⟨ascii "GET", [ascii "k"]⟩] ∧
    (storeUp.Get redisDown (ascii "k") val).result = some (val, some (ascii "EOF")) ∧
    ¬ ascii "GET" <:+: ascii "EOF" ∧ ¬ ascii "k" <:+: ascii "EOF" ∧
    (storeUp.LLen redisDown (ascii "k")).calls = [.poolDo ⟨ascii "LLEN", [ascii "k"]⟩] ∧
    (storeUp.LLen redisDown (ascii "k")).result
      = some (0, some (ascii "redis lrange k failed. Detais: EOF")) ∧
    (storeUp.ListLen redisDown (ascii "k")).calls = [.poolDo ⟨ascii "LLEN", [ascii "L:k"]⟩] ∧
    (storeUp.ListLen redisDown (ascii "k")).result
      = some (0, some (ascii "redis lrange L:k failed. Detais: EOF")) ∧
    ¬ ascii "LLEN" <:+: ascii "redis lrange k failed. Detais: EOF" ∧
    ¬ ascii "llen" <:+: ascii "redis lrange k failed. Detais: EOF" :=
  ⟨rfl, rfl, rfl, rfl, rfl, rfl, by decide, by decide, by decide, by decide, by decide,
    by decide, by decide, by decide⟩

end RedisFarmSpec
